import Mathlib

/-!
Shallow embedding of the watch-party backend of `server.js` (the in-memory
room registry, rate limiter, room code generator, clock ticker and reaper),
together with theorems settling the specification claims about it.

JavaScript objects used as string-keyed maps (`rooms`, `userLastMessageTime`)
are modelled as association lists `List (String × _)`; object field mutation
is modelled by functional record update.  Timestamps (`Date.now()`) are
naturals; the JavaScript subtractions `now - last` are taken in `Int` so that
the comparison semantics match exactly.  JavaScript string truthiness
(`!username`, `!room.videoUrl`, `movieTitle || ""`) is modelled explicitly;
a value that can be `undefined` in the source (a missing query or body field)
is an `Option String`.
-/

set_option autoImplicit false

namespace WatchParty

/-- Chat message entry, as pushed by the send-message handler:
`\x7b username, profilePicture, message, timestamp \x7d`.  `profilePicture`
may be absent in the request body, hence `Option String`. -/
structure Message where
  username : String
  profilePicture : Option String
  message : String
  timestamp : Nat
deriving Repr, DecidableEq

/-- Room record, as created by the create-room handler.  `videoUrl` is an
`Option String` because the set-room-details handler stores `req.query.url`
verbatim, which is `undefined` when the query parameter is missing; at
creation it is the empty string (`some ""`). -/
structure Room where
  currentTime : Nat
  videoUrl : Option String
  lastActivity : Nat
  roomName : String
  movieTitle : String
  chat : List Message
deriving Repr, DecidableEq

/-- The whole mutable server state: the `rooms` object and the
`userLastMessageTime` object. -/
structure ServerState where
  rooms : List (String × Room)
  userLastMessageTime : List (String × Nat)
deriving Repr, DecidableEq

/-- Lookup in a JavaScript object modelled as an association list
(`obj[key]`, yielding `undefined` = `none` when the key is absent). -/
def alookup {α : Type} : List (String × α) → String → Option α
  | [], _ => none
  | p :: rest, k => if p.1 == k then some p.2 else alookup rest k

/-- Assignment `obj[key] = v` on a JavaScript object modelled as an
association list: overwrite the existing entry in place, or append a new
entry at the end. -/
def aset {α : Type} : List (String × α) → String → α → List (String × α)
  | [], k, v => [(k, v)]
  | p :: rest, k, v => if p.1 == k then (k, v) :: rest else p :: aset rest k v

/-- In-place mutation of the room object stored under a key
(`room.field = ...` after `const room = rooms[code]`): apply `f` to every
entry whose key is `code` (a JavaScript object holds at most one). -/
def updateRoom : List (String × Room) → String → (Room → Room) → List (String × Room)
  | [], _, _ => []
  | p :: rest, code, f =>
    (if p.1 == code then (p.1, f p.2) else p) :: updateRoom rest code f

/-- JavaScript truthiness of the `videoUrl` field (`room.videoUrl` as a
condition): `undefined` and the empty string are falsy. -/
def urlTruthy : Option String → Bool
  | none => false
  | some s => !(s == "")

/-- MESSAGE_RATE_LIMIT = 5000 (5 s), from the source. -/
def MESSAGE_RATE_LIMIT : Nat := 5000

/-- Base-36 digit of `Number.prototype.toString(36)` output: `0`-`9` or
lowercase `a`-`z` (stated via character codes). -/
def isBase36Digit (c : Char) : Bool :=
  (48 ≤ c.toNat && c.toNat ≤ 57) || (97 ≤ c.toNat && c.toNat ≤ 122)

/-- Uppercase base-36 alphabet: digits `0`-`9` or uppercase `A`-`Z`. -/
def isUpperBase36 (c : Char) : Bool :=
  (48 ≤ c.toNat && c.toNat ≤ 57) || (65 ≤ c.toNat && c.toNat ≤ 90)

/-- Characterizes the strings `Math.random().toString(36)` can produce:
either `"0"` (for the draw 0) or `"0."` followed by at least one base-36
digit (for a nonzero draw in the open unit interval). -/
def validRandomString (s : String) : Bool :=
  s == "0" ||
    ((s.data.take 2 == ['0', '.']) && !(s.data.drop 2).isEmpty
      && (s.data.drop 2).all isBase36Digit)

/-- One candidate code from one random draw `d` (the string form of the
drawn number): `d.substr(2, 5).toUpperCase()`. -/
def codeOfDraw (d : String) : String :=
  ⟨((d.data.drop 2).take 5).map Char.toUpper⟩

/-- The room code generator, `generateRoomCode`: repeatedly draw, format and
uppercase until the candidate is not a key of `rooms`.  The infinite stream of
draws is modelled by the list `draws`; `none` models the (probability-zero)
divergence when every supplied draw collides. -/
def generateRoomCode (draws : List String) (rooms : List (String × Room)) : Option String :=
  (draws.map codeOfDraw).find? (fun c => (alookup rooms c).isNone)

/-- Result of the create-room handler. -/
inductive CreateResult where
  | invalidInput
  | created (code : String)
deriving Repr, DecidableEq

/-- Result of the set-room-details handler. -/
inductive SetDetailsResult where
  | notFound
  | success
deriving Repr, DecidableEq

/-- Result of the time handler. -/
inductive TimeResult where
  | notFound
  | ok (currentTime : Nat)
deriving Repr, DecidableEq

/-- Body of a successful room-details response. -/
structure RoomDetails where
  videoUrl : Option String
  roomName : String
  movieTitle : String
  chat : List Message
deriving Repr, DecidableEq

/-- Result of the room-details handler. -/
inductive DetailsResult where
  | notFound
  | ok (d : RoomDetails)
deriving Repr, DecidableEq

/-- Result of the send-message handler. -/
inductive PostResult where
  | notFound
  | invalidInput
  | rateLimited
  | success
deriving Repr, DecidableEq

/-- GET `/create-room?username=...`: reject an empty (or missing) username
with status 400, otherwise generate a fresh code and insert a new room with
`currentTime` 0, empty `videoUrl`, `lastActivity = now`, room name
`username + "'s room"`, empty movie title and empty chat.  `none` models the
generator diverging on the supplied draws. -/
def createRoom (username : String) (draws : List String) (now : Nat)
    (st : ServerState) : Option (CreateResult × ServerState) :=
  if username == "" then some (.invalidInput, st)
  else
    match generateRoomCode draws st.rooms with
    | none => none
    | some code =>
      some (.created code,
        { st with rooms := st.rooms ++ [(code,
            { currentTime := 0, videoUrl := some "", lastActivity := now,
              roomName := username ++ "'s room", movieTitle := "", chat := [] })] })

/-- GET `/set-room-details/:roomCode?url=...&movieTitle=...`: 404 if the room
is absent; otherwise store `url` verbatim as `videoUrl`, store
`movieTitle || ""`, and refresh `lastActivity`. -/
def setRoomDetails (code : String) (url : Option String) (movieTitle : Option String)
    (now : Nat) (st : ServerState) : SetDetailsResult × ServerState :=
  match alookup st.rooms code with
  | none => (.notFound, st)
  | some _ =>
    (.success,
      { st with rooms := updateRoom st.rooms code (fun r =>
          { r with videoUrl := url, movieTitle := movieTitle.getD "",
                   lastActivity := now }) })

/-- GET `/time/:roomCode`: 404 if the room is absent; otherwise refresh
`lastActivity` and return `currentTime`. -/
def getTime (code : String) (now : Nat) (st : ServerState) : TimeResult × ServerState :=
  match alookup st.rooms code with
  | none => (.notFound, st)
  | some room =>
    (.ok room.currentTime,
      { st with rooms := updateRoom st.rooms code (fun r => { r with lastActivity := now }) })

/-- GET `/room-details/:roomCode`: 404 if the room is absent; otherwise
refresh `lastActivity` and return `videoUrl`, `roomName`, `movieTitle` and
`chat`. -/
def getDetails (code : String) (now : Nat) (st : ServerState) : DetailsResult × ServerState :=
  match alookup st.rooms code with
  | none => (.notFound, st)
  | some room =>
    (.ok { videoUrl := room.videoUrl, roomName := room.roomName,
           movieTitle := room.movieTitle, chat := room.chat },
      { st with rooms := updateRoom st.rooms code (fun r => { r with lastActivity := now }) })

/-- GET `/rooms`: the list of `\x7b code, roomName, movieTitle \x7d` for every
room whose `videoUrl` is truthy, in registry order; no state change. -/
def listRooms (st : ServerState) : List (String × String × String) :=
  (st.rooms.filter (fun p => urlTruthy p.2.videoUrl)).map
    (fun p => (p.1, p.2.roomName, p.2.movieTitle))

/-- The rate-limit rejection test of the send-message handler:
`userLastMessageTime[username] && now - userLastMessageTime[username] <
MESSAGE_RATE_LIMIT` (a stored time of 0 is falsy in JavaScript, so it never
rate-limits). -/
def rateLimitHit (m : List (String × Nat)) (username : String) (now : Nat) : Bool :=
  match alookup m username with
  | none => false
  | some t => (!(t == 0)) && ((now : Int) - (t : Int) < (MESSAGE_RATE_LIMIT : Int))

/-- POST `/send-message/:roomCode`: 404 if the room is absent; 400 if
`username` or `message` is empty; 429 if the rate limiter rejects; otherwise
record `now` for the username, append the message to the chat and refresh
`lastActivity`. -/
def postMessage (code : String) (username : String) (profilePicture : Option String)
    (message : String) (now : Nat) (st : ServerState) : PostResult × ServerState :=
  match alookup st.rooms code with
  | none => (.notFound, st)
  | some _ =>
    if username == "" || message == "" then (.invalidInput, st)
    else if rateLimitHit st.userLastMessageTime username now then (.rateLimited, st)
    else
      (.success,
        { rooms := updateRoom st.rooms code (fun r =>
            { r with
                chat := r.chat ++
                  [{ username := username, profilePicture := profilePicture,
                     message := message, timestamp := now }],
                lastActivity := now }),
          userLastMessageTime := aset st.userLastMessageTime username now })

/-- One tick of the 5-second interval: `rooms[code].currentTime += 5` for
every room in the registry. -/
def tick (st : ServerState) : ServerState :=
  { st with rooms := st.rooms.map (fun p =>
      (p.1, { p.2 with currentTime := p.2.currentTime + 5 })) }

/-- The keep condition of the reaper sweep: a room survives when it is not
deleted, i.e. when `videoUrl` is truthy and `now - lastActivity` does not
exceed 30 minutes. -/
def reapKeeps (now : Nat) (r : Room) : Bool :=
  urlTruthy r.videoUrl && !((now : Int) - (r.lastActivity : Int) > ((30 * 60 * 1000 : Nat) : Int))

/-- One sweep of the 5-minute cleanup interval: delete every room whose
`videoUrl` is falsy or whose inactivity exceeds 30 minutes. -/
def reap (now : Nat) (st : ServerState) : ServerState :=
  { st with rooms := st.rooms.filter (fun p => reapKeeps now p.2) }

/-- Every operation that touches the shared state, for stating whole-system
invariants. -/
inductive Op where
  | create (username : String) (draws : List String) (now : Nat)
  | setDetails (code : String) (url : Option String) (movieTitle : Option String) (now : Nat)
  | getTime (code : String) (now : Nat)
  | getDetails (code : String) (now : Nat)
  | listRooms
  | postMessage (code : String) (username : String) (profilePicture : Option String)
      (message : String) (now : Nat)
  | tick
  | reap (now : Nat)
deriving Repr, DecidableEq

/-- State effect of one operation (`none` only for a diverging create). -/
def runOp : Op → ServerState → Option ServerState
  | .create u draws now, st => (createRoom u draws now st).map (·.2)
  | .setDetails c url mt now, st => some (setRoomDetails c url mt now st).2
  | .getTime c now, st => some (getTime c now st).2
  | .getDetails c now, st => some (getDetails c now st).2
  | .listRooms, st => some st
  | .postMessage c u pp m now, st => some (postMessage c u pp m now st).2
  | .tick, st => some (tick st)
  | .reap now, st => some (reap now st)

/-- The initial state: both objects empty. -/
def initState : ServerState := { rooms := [], userLastMessageTime := [] }

/-- States reachable from the initial state by any sequence of operations. -/
inductive Reachable : ServerState → Prop where
  | init : Reachable initState
  | step {s s' : ServerState} (op : Op) : Reachable s → runOp op s = some s' → Reachable s'

/-! Helper lemmas about the association-list operations. -/

theorem alookup_mem {α : Type} {l : List (String × α)} {k : String} {v : α}
    (h : alookup l k = some v) : (k, v) ∈ l := by
  induction l with
  | nil => simp [alookup] at h
  | cons p rest ih =>
    rw [alookup] at h
    by_cases hpk : p.1 = k
    · have hv : p.2 = v := by simpa [hpk] using h
      have hp : p = (k, v) := by
        obtain ⟨a, b⟩ := p
        simp only at hpk hv
        rw [hpk, hv]
      rw [hp]
      exact List.mem_cons_self _ _
    · simp only [beq_eq_false_iff_ne.mpr hpk, if_false] at h
      exact List.mem_cons_of_mem _ (ih h)

theorem alookup_eq_none_iff {α : Type} {l : List (String × α)} {k : String} :
    alookup l k = none ↔ k ∉ l.map Prod.fst := by
  induction l with
  | nil => simp [alookup]
  | cons p rest ih =>
    rw [alookup]
    by_cases hpk : p.1 = k
    · simp [hpk]
    · simp [beq_eq_false_iff_ne.mpr hpk, ih, Ne.symm hpk]

theorem alookup_of_mem_nodup {α : Type} {l : List (String × α)} {k : String} {v : α}
    (hnd : (l.map Prod.fst).Nodup) (hmem : (k, v) ∈ l) : alookup l k = some v := by
  induction l with
  | nil => simp at hmem
  | cons p rest ih =>
    simp only [List.map_cons, List.nodup_cons] at hnd
    rcases List.mem_cons.mp hmem with heq | hmem'
    · subst heq
      simp [alookup]
    · have hk : p.1 ≠ k := by
        intro hc
        exact hnd.1 (hc ▸ (List.mem_map.mpr ⟨(k, v), hmem', rfl⟩))
      rw [alookup, if_neg (by simpa using hk)]
      exact ih hnd.2 hmem'

theorem alookup_append_some {α : Type} {l l2 : List (String × α)} {k : String} {v : α}
    (h : alookup l k = some v) : alookup (l ++ l2) k = some v := by
  induction l with
  | nil => simp [alookup] at h
  | cons p rest ih =>
    rw [alookup] at h
    rw [List.cons_append, alookup]
    by_cases hpk : p.1 = k <;> simp_all

theorem alookup_append_none {α : Type} {l l2 : List (String × α)} {k : String}
    (h : alookup l k = none) : alookup (l ++ l2) k = alookup l2 k := by
  induction l with
  | nil => simp
  | cons p rest ih =>
    rw [alookup] at h
    rw [List.cons_append, alookup]
    by_cases hpk : p.1 = k <;> simp_all

theorem alookup_aset_self {α : Type} {l : List (String × α)} (k : String) (v : α) :
    alookup (aset l k v) k = some v := by
  induction l with
  | nil => simp [aset, alookup]
  | cons p rest ih =>
    rw [aset]
    by_cases hpk : p.1 = k
    · simp [hpk, alookup]
    · rw [if_neg (by simpa using hpk), alookup, if_neg (by simpa using hpk)]
      exact ih

theorem updateRoom_eq_map (l : List (String × Room)) (c : String) (f : Room → Room) :
    updateRoom l c f = l.map (fun p => if p.1 == c then (p.1, f p.2) else p) := by
  induction l with
  | nil => rfl
  | cons p rest ih => rw [updateRoom, List.map_cons, ih]

theorem keys_updateRoom (l : List (String × Room)) (c : String) (f : Room → Room) :
    (updateRoom l c f).map Prod.fst = l.map Prod.fst := by
  induction l with
  | nil => rfl
  | cons p rest ih =>
    rw [updateRoom, List.map_cons, List.map_cons, ih]
    by_cases hpc : p.1 = c <;> simp [hpc]

theorem alookup_updateRoom_self {l : List (String × Room)} {c : String} {r : Room}
    (f : Room → Room) (h : alookup l c = some r) :
    alookup (updateRoom l c f) c = some (f r) := by
  induction l with
  | nil => simp [alookup] at h
  | cons p rest ih =>
    rw [alookup] at h
    rw [updateRoom]
    by_cases hpc : p.1 = c
    · simp only [hpc, beq_self_eq_true, if_true] at h ⊢
      rw [alookup, if_pos (by simp)]
      simp_all
    · rw [if_neg (by simpa using hpc)] at h ⊢
      rw [alookup, if_neg (by simpa using hpc)]
      exact ih h

theorem alookup_updateRoom_ne {l : List (String × Room)} {c k : String}
    (f : Room → Room) (h : k ≠ c) :
    alookup (updateRoom l c f) k = alookup l k := by
  induction l with
  | nil => rfl
  | cons p rest ih =>
    by_cases hpc : p.1 = c
    · rw [updateRoom, if_pos (by simpa using hpc)]
      have hne : (p.1 == k) = false :=
        beq_eq_false_iff_ne.mpr (by rw [hpc]; exact Ne.symm h)
      rw [alookup, alookup]
      simp only [hne, if_false]
      exact ih
    · rw [updateRoom, if_neg (by simpa using hpc)]
      rw [alookup, alookup]
      by_cases hpk : p.1 = k <;> simp_all

theorem alookup_mapVal {l : List (String × Room)} {k : String} (g : Room → Room) :
    alookup (l.map (fun p => (p.1, g p.2))) k = (alookup l k).map g := by
  induction l with
  | nil => rfl
  | cons p rest ih =>
    rw [List.map_cons, alookup, alookup]
    by_cases hpk : p.1 = k <;> simp_all

theorem currentTime_of_updateRoom {l : List (String × Room)} {c k : String}
    {f : Room → Room} {r r' : Room}
    (h : alookup l k = some r) (h' : alookup (updateRoom l c f) k = some r')
    (hf : ∀ q, (f q).currentTime = q.currentTime) :
    r'.currentTime = r.currentTime := by
  by_cases hkc : k = c
  · subst hkc
    rw [alookup_updateRoom_self f h] at h'
    cases h'
    exact hf r
  · rw [alookup_updateRoom_ne f hkc, h] at h'
    cases h'
    rfl

/-! Example rooms and states used to instantiate the hypothesized theorems. -/

/-- Example unconfigured room. -/
def exRoom : Room :=
  { currentTime := 0, videoUrl := some "", lastActivity := 0,
    roomName := "alice's room", movieTitle := "", chat := [] }

/-- Example configured room. -/
def exConfigRoom : Room :=
  { currentTime := 10, videoUrl := some "https://x/video", lastActivity := 100,
    roomName := "alice's room", movieTitle := "Movie A", chat := [] }

/-- Example state with one unconfigured room. -/
def exState : ServerState :=
  { rooms := [("AB3DE", exRoom)], userLastMessageTime := [] }

/-- Example state with one configured room. -/
def exConfigState : ServerState :=
  { rooms := [("AB3DE", exConfigRoom)], userLastMessageTime := [] }

/-! Claim theorems. -/

/-- C1, counterexample to the claim as stated: in the empty registry (where
room `AB3DE` does not exist), PostMessage with an empty username and an empty
message returns NotFound, not InvalidInput — the handler checks room
existence before validating the fields. -/
theorem c1_counterexample :
    (postMessage "AB3DE" "" none "" 0 initState).1 = PostResult.notFound ∧
    PostResult.notFound ≠ PostResult.invalidInput :=
  ⟨rfl, by decide⟩

/-- C1, amended: PostMessage with an empty username or an empty message never
mutates the registry or rate-limiter state; it returns InvalidInput when the
room exists, and NotFound when it does not. -/
theorem c1_empty_input (code username : String) (pp : Option String)
    (message : String) (now : Nat) (st : ServerState)
    (h : username = "" ∨ message = "") :
    (postMessage code username pp message now st).2 = st ∧
    (∀ r, alookup st.rooms code = some r →
      (postMessage code username pp message now st).1 = PostResult.invalidInput) ∧
    (alookup st.rooms code = none →
      (postMessage code username pp message now st).1 = PostResult.notFound) := by
  have hcond : (username == "" || message == "") = true := by
    rcases h with h | h <;> simp [h]
  cases hl : alookup st.rooms code with
  | none => simp [postMessage, hl]
  | some r => simp [postMessage, hl, hcond]

/-- C1 witness: the amended theorem applied at a concrete room and state. -/
theorem c1_witness :
    (postMessage "AB3DE" "" none "hi" 7 exState).2 = exState ∧
    (postMessage "AB3DE" "" none "hi" 7 exState).1 = PostResult.invalidInput := by
  have h := c1_empty_input "AB3DE" "" none "hi" 7 exState (Or.inl rfl)
  exact ⟨h.1, h.2.1 exRoom (by rfl)⟩

/-- C3: on a reaper sweep at time `now`, a room entry of the registry
survives if and only if its `videoUrl` is truthy (configured) and its
inactivity `now - lastActivity` does not exceed the 30-minute threshold;
equivalently it is deleted iff unconfigured or inactive for longer than the
threshold, an unconfigured room being deleted regardless of recency. -/
theorem c3_reap_iff (now : Nat) (st : ServerState) (code : String) (room : Room)
    (hmem : (code, room) ∈ st.rooms) :
    ((code, room) ∈ (reap now st).rooms ↔
      (urlTruthy room.videoUrl = true ∧
        (now : Int) - (room.lastActivity : Int) ≤ 30 * 60 * 1000)) := by
  simp only [reap, List.mem_filter, hmem, true_and, reapKeeps,
    Bool.and_eq_true, Bool.not_eq_true', decide_eq_false_iff_not, not_lt]
  norm_num

/-- C3 witness: a configured, recently active room survives the sweep. -/
theorem c3_witness :
    (("AB3DE", exConfigRoom) ∈ (reap 200 exConfigState).rooms ↔
      (urlTruthy exConfigRoom.videoUrl = true ∧
        (200 : Int) - ((exConfigRoom.lastActivity : Nat) : Int) ≤ 30 * 60 * 1000)) :=
  c3_reap_iff 200 exConfigState "AB3DE" exConfigRoom (by simp [exConfigState])

/-- C5: CreateRoom with an empty display name returns InvalidInput and leaves
the state untouched; with a non-empty display name (and a successful draw) it
returns a code that is fresh in the registry and appends exactly one room
with the documented initial fields, leaving the rate-limiter map unchanged. -/
theorem c5_createRoom :
    (∀ draws now st, createRoom "" draws now st = some (CreateResult.invalidInput, st)) ∧
    (∀ username draws now st res st2, username ≠ "" →
      createRoom username draws now st = some (res, st2) →
      ∃ code, res = CreateResult.created code ∧
        alookup st.rooms code = none ∧
        st2.rooms = st.rooms ++ [(code,
          { currentTime := 0, videoUrl := some "", lastActivity := now,
            roomName := username ++ "'s room", movieTitle := "", chat := [] })] ∧
        st2.userLastMessageTime = st.userLastMessageTime) := by
  constructor
  · intro draws now st
    simp [createRoom]
  · intro username draws now st res st2 hu h
    rw [createRoom, if_neg (by simpa using hu)] at h
    cases hgen : generateRoomCode draws st.rooms with
    | none => rw [hgen] at h; cases h
    | some code =>
      rw [hgen] at h
      have hfree : (alookup st.rooms code).isNone = true := by
        have := List.find?_some hgen
        simpa using this
      obtain ⟨hres, hst⟩ : res = CreateResult.created code ∧
          st2 = { st with rooms := st.rooms ++ [(code,
            { currentTime := 0, videoUrl := some "", lastActivity := now,
              roomName := username ++ "'s room", movieTitle := "", chat := [] })] } := by
        have h' := h
        injection h' with h''
        injection h'' with h1 h2
        exact ⟨h1.symm, h2.symm⟩
      subst hres hst
      exact ⟨code, rfl, Option.isNone_iff_eq_none.mp hfree, rfl, rfl⟩

/-- C5 witness: creating a room for alice from the draw string `"0.abcde"` in
the empty registry. -/
theorem c5_witness :
    ∃ code, CreateResult.created "ABCDE" = CreateResult.created code ∧
      alookup initState.rooms code = none ∧
      ({ rooms := [("ABCDE",
          { currentTime := 0, videoUrl := some "", lastActivity := 3,
            roomName := "alice's room", movieTitle := "", chat := [] })],
         userLastMessageTime := [] } : ServerState).rooms = initState.rooms ++ [(code,
          { currentTime := 0, videoUrl := some "", lastActivity := 3,
            roomName := "alice" ++ "'s room", movieTitle := "", chat := [] })] ∧
      ({ rooms := [("ABCDE",
          { currentTime := 0, videoUrl := some "", lastActivity := 3,
            roomName := "alice's room", movieTitle := "", chat := [] })],
         userLastMessageTime := [] } : ServerState).userLastMessageTime =
        initState.userLastMessageTime :=
  c5_createRoom.2 "alice" ["0.abcde"] 3 initState (CreateResult.created "ABCDE") _
    (by decide) (by rfl)

/-- C7: the two read operations return NotFound exactly when the code is not
a key of the registry; on an existing room they return its current time and
its details record respectively, refresh only that room entry by setting
`lastActivity` to `now`, and leave every other room and the rate-limiter map
unchanged. -/
theorem c7_reads :
    (∀ code now st, alookup st.rooms code = none →
      getTime code now st = (TimeResult.notFound, st) ∧
      getDetails code now st = (DetailsResult.notFound, st)) ∧
    (∀ code now st r, alookup st.rooms code = some r →
      (getTime code now st).1 = TimeResult.ok r.currentTime ∧
      (getDetails code now st).1 = DetailsResult.ok
        { videoUrl := r.videoUrl, roomName := r.roomName,
          movieTitle := r.movieTitle, chat := r.chat } ∧
      alookup (getTime code now st).2.rooms code = some { r with lastActivity := now } ∧
      alookup (getDetails code now st).2.rooms code = some { r with lastActivity := now } ∧
      (∀ c2, c2 ≠ code → alookup (getTime code now st).2.rooms c2 = alookup st.rooms c2) ∧
      (∀ c2, c2 ≠ code → alookup (getDetails code now st).2.rooms c2 = alookup st.rooms c2) ∧
      (getTime code now st).2.userLastMessageTime = st.userLastMessageTime ∧
      (getDetails code now st).2.userLastMessageTime = st.userLastMessageTime) := by
  constructor
  · intro code now st hl
    constructor <;> simp [getTime, getDetails, hl]
  · intro code now st r hl
    refine ⟨by simp [getTime, hl], by simp [getDetails, hl], ?_, ?_, ?_, ?_, ?_, ?_⟩
    · simp only [getTime, hl]
      exact alookup_updateRoom_self _ hl
    · simp only [getDetails, hl]
      exact alookup_updateRoom_self _ hl
    · intro c2 hc2
      simp only [getTime, hl]
      exact alookup_updateRoom_ne _ hc2
    · intro c2 hc2
      simp only [getDetails, hl]
      exact alookup_updateRoom_ne _ hc2
    · simp [getTime, hl]
    · simp [getDetails, hl]

/-- C7 witness: reads of a never-created code on the empty registry, and of
an existing room, behave as stated. -/
theorem c7_witness :
    (getTime "ZZZZZ" 9 initState = (TimeResult.notFound, initState) ∧
      getDetails "ZZZZZ" 9 initState = (DetailsResult.notFound, initState)) ∧
    (getTime "AB3DE" 200 exConfigState).1 = TimeResult.ok exConfigRoom.currentTime := by
  refine ⟨c7_reads.1 "ZZZZZ" 9 initState (by rfl), ?_⟩
  exact (c7_reads.2 "AB3DE" 200 exConfigState exConfigRoom (by rfl)).1

/-- C6: the room listing contains exactly the rooms whose `videoUrl` is
truthy (non-empty), each as its code, room name and movie title; the
operation has no state effect at all (in particular no `lastActivity`
refresh); and a room appears in the listing immediately after a successful
SetRoomDetails with a non-empty URL. -/
theorem c6_listRooms :
    (∀ st code name title, ((code, name, title) ∈ listRooms st ↔
      ∃ room, (code, room) ∈ st.rooms ∧ urlTruthy room.videoUrl = true ∧
        room.roomName = name ∧ room.movieTitle = title)) ∧
    (∀ st, runOp Op.listRooms st = some st) ∧
    (∀ st code r url mt now, alookup st.rooms code = some r → url ≠ "" →
      (code, r.roomName, mt.getD "") ∈
        listRooms (setRoomDetails code (some url) mt now st).2) := by
  have h1 : ∀ (st : ServerState) (code name title : String),
      ((code, name, title) ∈ listRooms st ↔
        ∃ room, (code, room) ∈ st.rooms ∧ urlTruthy room.videoUrl = true ∧
          room.roomName = name ∧ room.movieTitle = title) := by
    intro st code name title
    simp only [listRooms, List.mem_map, List.mem_filter]
    constructor
    · rintro ⟨⟨c2, room⟩, ⟨hmem, htruthy⟩, heq⟩
      obtain ⟨hc, hn, ht⟩ : c2 = code ∧ room.roomName = name ∧ room.movieTitle = title := by
        simpa using heq
      subst hc
      exact ⟨room, hmem, htruthy, hn, ht⟩
    · rintro ⟨room, hmem, htruthy, hn, ht⟩
      exact ⟨(code, room), ⟨hmem, htruthy⟩, by simp [hn, ht]⟩
  refine ⟨h1, fun st => rfl, ?_⟩
  intro st code r url mt now hl hu
  apply (h1 _ _ _ _).mpr
  refine ⟨{ r with videoUrl := some url, movieTitle := mt.getD "", lastActivity := now },
    ?_, by simp [urlTruthy, hu], rfl, rfl⟩
  simp only [setRoomDetails, hl]
  rw [updateRoom_eq_map]
  exact List.mem_map.mpr ⟨(code, r), alookup_mem hl, by simp⟩

/-- C6 witness: the configured example room is listed, and listing a state
with a configured room right after SetRoomDetails contains it. -/
theorem c6_witness :
    (("AB3DE", "alice's room", "Movie A") ∈ listRooms exConfigState ↔
      ∃ room, ("AB3DE", room) ∈ exConfigState.rooms ∧ urlTruthy room.videoUrl = true ∧
        room.roomName = "alice's room" ∧ room.movieTitle = "Movie A") ∧
    ("AB3DE", exRoom.roomName, (some "Movie A").getD "") ∈
      listRooms (setRoomDetails "AB3DE" (some "https://x/video") (some "Movie A") 5 exState).2 := by
  refine ⟨c6_listRooms.1 exConfigState "AB3DE" "alice's room" "Movie A", ?_⟩
  exact c6_listRooms.2.2 exState "AB3DE" exRoom "https://x/video" (some "Movie A") 5
    (by rfl) (by decide)

/-- C10: SetRoomDetails on an existing room succeeds for every `url` value —
including a missing (`none`) or empty one — and stores it verbatim as
`videoUrl`; when the stored value is falsy the room is thereby unconfigured
again: it no longer appears in the room listing, and any subsequent reaper
sweep deletes it no matter how recent its `lastActivity` is. -/
theorem c10_unconfigure (st : ServerState) (code : String) (r : Room)
    (url mt : Option String) (now : Nat)
    (hl : alookup st.rooms code = some r) :
    (setRoomDetails code url mt now st).1 = SetDetailsResult.success ∧
    alookup (setRoomDetails code url mt now st).2.rooms code =
      some { r with videoUrl := url, movieTitle := mt.getD "", lastActivity := now } ∧
    (urlTruthy url = false →
      (∀ name title, (code, name, title) ∉ listRooms (setRoomDetails code url mt now st).2) ∧
      (∀ now2, alookup (reap now2 (setRoomDetails code url mt now st).2).rooms code = none)) := by
  have hurl : ∀ p ∈ (setRoomDetails code url mt now st).2.rooms,
      p.1 = code → p.2.videoUrl = url := by
    intro p hp hpc
    simp only [setRoomDetails, hl] at hp
    rw [updateRoom_eq_map] at hp
    obtain ⟨q, hq, hqp⟩ := List.mem_map.mp hp
    by_cases hqc : q.1 = code
    · rw [if_pos (by simpa using hqc)] at hqp
      rw [← hqp]
    · rw [if_neg (by simpa using hqc)] at hqp
      exact absurd (hqp ▸ hpc) hqc
  refine ⟨by simp [setRoomDetails, hl], ?_, ?_⟩
  · simp only [setRoomDetails, hl]
    exact alookup_updateRoom_self _ hl
  · intro hfalsy
    constructor
    · intro name title hmem
      simp only [listRooms, List.mem_map, List.mem_filter] at hmem
      obtain ⟨p, ⟨hp, htruthy⟩, heq⟩ := hmem
      have hpc : p.1 = code := by
        have := congrArg Prod.fst heq
        simpa using this
      rw [hurl p hp hpc, hfalsy] at htruthy
      cases htruthy
    · intro now2
      rw [alookup_eq_none_iff]
      intro hmem
      simp only [reap] at hmem
      obtain ⟨p, hpf, hpc⟩ := List.mem_map.mp hmem
      have hp := (List.mem_filter.mp hpf).1
      have hkeep := (List.mem_filter.mp hpf).2
      have hu2 : p.2.videoUrl = url := hurl p hp hpc
      rw [reapKeeps, hu2, hfalsy] at hkeep
      cases hkeep

/-- C10 witness: clearing the URL of the configured example room makes it
vanish from the listing and be reaped immediately. -/
theorem c10_witness :
    (setRoomDetails "AB3DE" none none 101 exConfigState).1 = SetDetailsResult.success ∧
    alookup (setRoomDetails "AB3DE" none none 101 exConfigState).2.rooms "AB3DE" =
      some { exConfigRoom with
               videoUrl := none,
               movieTitle := (none : Option String).getD "",
               lastActivity := 101 } ∧
    (urlTruthy none = false →
      (∀ name title,
        ("AB3DE", name, title) ∉ listRooms (setRoomDetails "AB3DE" none none 101 exConfigState).2) ∧
      (∀ now2,
        alookup (reap now2 (setRoomDetails "AB3DE" none none 101 exConfigState).2).rooms "AB3DE"
          = none)) :=
  c10_unconfigure exConfigState "AB3DE" exConfigRoom none none 101 (by rfl)

/-- C4: a single tick adds exactly 5 to the current time of every room in
the registry (configured or not) and of no other state; N ticks add exactly
5 times N to every room alive throughout; and no operation other than the
tick ever changes the current time of a room that survives it. -/
theorem c4_ticker :
    (∀ st code, alookup (tick st).rooms code =
      (alookup st.rooms code).map (fun r => { r with currentTime := r.currentTime + 5 })) ∧
    (∀ (n : Nat) (st : ServerState) (code : String) (r : Room),
      alookup st.rooms code = some r →
      alookup (tick^[n] st).rooms code = some { r with currentTime := r.currentTime + 5 * n }) ∧
    (∀ (op : Op) (st st2 : ServerState) (code : String) (r r2 : Room),
      op ≠ Op.tick → (st.rooms.map Prod.fst).Nodup →
      runOp op st = some st2 →
      alookup st.rooms code = some r → alookup st2.rooms code = some r2 →
      r2.currentTime = r.currentTime) := by
  have h1 : ∀ (st : ServerState) (code : String), alookup (tick st).rooms code =
      (alookup st.rooms code).map (fun r => { r with currentTime := r.currentTime + 5 }) := by
    intro st code
    simp only [tick]
    exact alookup_mapVal (fun r => { r with currentTime := r.currentTime + 5 })
  refine ⟨h1, ?_, ?_⟩
  · intro n
    induction n with
    | zero =>
      intro st code r hl
      rw [Function.iterate_zero_apply, hl]
      rfl
    | succ m ih =>
      intro st code r hl
      rw [Function.iterate_succ_apply', h1, ih st code r hl]
      simp [Nat.mul_succ, Nat.add_assoc]
  · intro op st st2 code r r2 hop hnd hrun hl hl2
    cases op with
    | create u draws now =>
      simp only [runOp] at hrun
      cases hcr0 : createRoom u draws now st with
      | none => rw [hcr0] at hrun; cases hrun
      | some pair =>
      rw [hcr0] at hrun
      simp only [Option.map_some', Option.some_inj] at hrun
      obtain ⟨res, st3⟩ := pair
      have hst3 : st3 = st2 := hrun
      have hcr := hcr0
      rw [createRoom] at hcr
      by_cases hu : u == ""
      · rw [if_pos hu] at hcr
        obtain ⟨-, h2⟩ : res = CreateResult.invalidInput ∧ st3 = st := by
          have := hcr
          injection this with h3
          injection h3 with ha hb
          exact ⟨ha.symm, hb.symm⟩
        subst h2
        rw [← hst3, hl] at hl2
        cases hl2
        rfl
      · rw [if_neg hu] at hcr
        cases hgen : generateRoomCode draws st.rooms with
        | none => rw [hgen] at hcr; cases hcr
        | some c =>
          rw [hgen] at hcr
          obtain ⟨-, h2⟩ : res = CreateResult.created c ∧ st3 = { st with
              rooms := st.rooms ++ [(c,
                { currentTime := 0, videoUrl := some "", lastActivity := now,
                  roomName := u ++ "'s room", movieTitle := "", chat := [] })] } := by
            have := hcr
            injection this with h3
            injection h3 with ha hb
            exact ⟨ha.symm, hb.symm⟩
          subst h2
          rw [← hst3] at hl2
          rw [alookup_append_some hl] at hl2
          cases hl2
          rfl
    | setDetails c url mt now =>
      simp only [runOp, Option.some_inj] at hrun
      subst hrun
      cases hc : alookup st.rooms c with
      | none =>
        rw [setRoomDetails, hc] at hl2
        simp only at hl2
        rw [hl] at hl2
        cases hl2
        rfl
      | some q =>
        rw [setRoomDetails, hc] at hl2
        simp only at hl2
        exact currentTime_of_updateRoom hl hl2 (fun q2 => rfl)
    | getTime c now =>
      simp only [runOp, Option.some_inj] at hrun
      subst hrun
      cases hc : alookup st.rooms c with
      | none =>
        rw [getTime, hc] at hl2
        simp only at hl2
        rw [hl] at hl2
        cases hl2
        rfl
      | some q =>
        rw [getTime, hc] at hl2
        simp only at hl2
        exact currentTime_of_updateRoom hl hl2 (fun q2 => rfl)
    | getDetails c now =>
      simp only [runOp, Option.some_inj] at hrun
      subst hrun
      cases hc : alookup st.rooms c with
      | none =>
        rw [getDetails, hc] at hl2
        simp only at hl2
        rw [hl] at hl2
        cases hl2
        rfl
      | some q =>
        rw [getDetails, hc] at hl2
        simp only at hl2
        exact currentTime_of_updateRoom hl hl2 (fun q2 => rfl)
    | listRooms =>
      simp only [runOp, Option.some_inj] at hrun
      subst hrun
      rw [hl] at hl2
      cases hl2
      rfl
    | postMessage c u pp m now =>
      simp only [runOp, Option.some_inj] at hrun
      subst hrun
      cases hc : alookup st.rooms c with
      | none =>
        rw [postMessage, hc] at hl2
        simp only at hl2
        rw [hl] at hl2
        cases hl2
        rfl
      | some q =>
        rw [postMessage, hc] at hl2
        simp only at hl2
        by_cases hemp : (u == "" || m == "") = true
        · rw [if_pos hemp] at hl2
          simp only at hl2
          rw [hl] at hl2
          cases hl2
          rfl
        · rw [if_neg hemp] at hl2
          by_cases hrate : rateLimitHit st.userLastMessageTime u now = true
          · rw [if_pos hrate] at hl2
            simp only at hl2
            rw [hl] at hl2
            cases hl2
            rfl
          · rw [if_neg hrate] at hl2
            simp only at hl2
            exact currentTime_of_updateRoom hl hl2 (fun q2 => rfl)
    | tick => exact absurd rfl hop
    | reap now =>
      simp only [runOp, Option.some_inj] at hrun
      subst hrun
      have hmem : (code, r2) ∈ (reap now st).rooms := alookup_mem hl2
      have hmem2 : (code, r2) ∈ st.rooms := (List.mem_filter.mp hmem).1
      have := alookup_of_mem_nodup hnd hmem2
      rw [hl] at this
      cases this
      rfl

/-- C4 witness: two ticks bring the configured example room from 10 to 20
seconds, and a reaper sweep does not change the surviving room's time. -/
theorem c4_witness :
    alookup (tick^[2] exConfigState).rooms "AB3DE" =
      some { exConfigRoom with currentTime := exConfigRoom.currentTime + 5 * 2 } ∧
    ∀ r2, alookup (reap 200 exConfigState).rooms "AB3DE" = some r2 →
      r2.currentTime = exConfigRoom.currentTime := by
  refine ⟨c4_ticker.2.1 2 exConfigState "AB3DE" exConfigRoom (by rfl), ?_⟩
  intro r2 h2
  exact c4_ticker.2.2 (Op.reap 200) exConfigState (reap 200 exConfigState) "AB3DE"
    exConfigRoom r2 (by decide) (by decide) rfl (by rfl) h2

theorem postMessage_success_state {code username : String} {pp : Option String}
    {message : String} {now : Nat} {st : ServerState}
    (h : (postMessage code username pp message now st).1 = PostResult.success) :
    username ≠ "" ∧ message ≠ "" ∧
    (postMessage code username pp message now st).2.userLastMessageTime
      = aset st.userLastMessageTime username now := by
  cases hr : alookup st.rooms code with
  | none =>
    simp only [postMessage, hr] at h
    cases h
  | some r0 =>
    simp only [postMessage, hr] at h ⊢
    by_cases hemp : (username == "" || message == "") = true
    · rw [if_pos hemp] at h
      cases h
    · rw [if_neg hemp] at h ⊢
      have hune : username ≠ "" := by
        intro hc
        exact hemp (by simp [hc])
      have hmne : message ≠ "" := by
        intro hc
        exact hemp (by simp [hc])
      by_cases hrate : rateLimitHit st.userLastMessageTime username now = true
      · rw [if_pos hrate] at h
        cases h
      · rw [if_neg hrate]
        exact ⟨hune, hmne, rfl⟩

/-- C2: once a message by `username` is accepted at time `t` (with `t`
positive, as every clock reading is), the accepted time is recorded; any
further PostMessage by the same username — in any existing room, with a
non-empty message — at a time `t2` with `t2 - t < 5000` ms is rejected with
RateLimited and changes nothing (in particular the recorded last-message
time); and once `t2 - t ≥ 5000` ms such a call is accepted again. -/
theorem c2_rate_limit (st : ServerState) (code username : String) (pp : Option String)
    (message : String) (t : Nat) (hpos : 0 < t)
    (hsucc : (postMessage code username pp message t st).1 = PostResult.success) :
    alookup (postMessage code username pp message t st).2.userLastMessageTime username
      = some t ∧
    (∀ (code2 : String) (pp2 : Option String) (msg2 : String) (t2 : Nat),
      (∃ q, alookup (postMessage code username pp message t st).2.rooms code2 = some q) →
      msg2 ≠ "" →
      (((t2 : Int) - (t : Int) < 5000) →
        postMessage code2 username pp2 msg2 t2 (postMessage code username pp message t st).2
          = (PostResult.rateLimited, (postMessage code username pp message t st).2)) ∧
      (((t2 : Int) - (t : Int) ≥ 5000) →
        (postMessage code2 username pp2 msg2 t2
          (postMessage code username pp message t st).2).1 = PostResult.success)) := by
  obtain ⟨hu, hm, hmap⟩ := postMessage_success_state hsucc
  set st1 := (postMessage code username pp message t st).2 with hst1
  have hlook : alookup st1.userLastMessageTime username = some t := by
    rw [hmap]
    exact alookup_aset_self username t
  refine ⟨hlook, ?_⟩
  intro code2 pp2 msg2 t2 hex hmsg2
  obtain ⟨q, hq⟩ := hex
  have hemp2 : (username == "" || msg2 == "") = false := by
    simp [hu, hmsg2]
  have htne : (t == 0) = false := by
    simp [Nat.pos_iff_ne_zero.mp hpos]
  constructor
  · intro hlt
    have hhit : rateLimitHit st1.userLastMessageTime username t2 = true := by
      simp only [rateLimitHit, hlook, htne, Bool.not_false, Bool.true_and,
        MESSAGE_RATE_LIMIT]
      exact decide_eq_true (by exact_mod_cast hlt)
    simp [postMessage, hq, hemp2, hhit]
  · intro hge
    have hhit : rateLimitHit st1.userLastMessageTime username t2 = false := by
      simp only [rateLimitHit, hlook, htne, Bool.not_false, Bool.true_and,
        MESSAGE_RATE_LIMIT]
      exact decide_eq_false (not_lt.mpr (by exact_mod_cast hge))
    simp [postMessage, hq, hemp2, hhit]

/-- C2 witness: alice posts at time 1000 in the example room; a second post
at 3000 (even in the same room) is rate-limited and leaves state unchanged,
and a post at 6000 succeeds. -/
theorem c2_witness :
    alookup (postMessage "AB3DE" "alice" none "hi" 1000 exState).2.userLastMessageTime "alice"
      = some 1000 ∧
    postMessage "AB3DE" "alice" none "again" 3000
        (postMessage "AB3DE" "alice" none "hi" 1000 exState).2
      = (PostResult.rateLimited, (postMessage "AB3DE" "alice" none "hi" 1000 exState).2) ∧
    (postMessage "AB3DE" "alice" none "later" 6000
        (postMessage "AB3DE" "alice" none "hi" 1000 exState).2).1 = PostResult.success := by
  have h := c2_rate_limit exState "AB3DE" "alice" none "hi" 1000 (by decide) (by rfl)
  have h3 := h.2 "AB3DE" none "again" 3000
    ⟨{ exRoom with
        chat := [{ username := "alice", profilePicture := none,
                   message := "hi", timestamp := 1000 }],
        lastActivity := 1000 }, by rfl⟩ (by decide)
  have h6 := h.2 "AB3DE" none "later" 6000
    ⟨{ exRoom with
        chat := [{ username := "alice", profilePicture := none,
                   message := "hi", timestamp := 1000 }],
        lastActivity := 1000 }, by rfl⟩ (by decide)
  exact ⟨h.1, h3.1 (by decide), h6.2 (by decide)⟩

theorem keys_mapVal (l : List (String × Room)) (g : Room → Room) :
    (l.map (fun p => (p.1, g p.2))).map Prod.fst = l.map Prod.fst := by
  induction l with
  | nil => rfl
  | cons p rest ih => simp [ih]

theorem keys_tick (st : ServerState) :
    (tick st).rooms.map Prod.fst = st.rooms.map Prod.fst :=
  keys_mapVal st.rooms (fun r => { r with currentTime := r.currentTime + 5 })

/-- C8: in every reachable state the codes of the live rooms are pairwise
distinct, and every code returned by CreateRoom is absent from the registry
at the moment of creation (the generator resamples until the drawn code is
free). -/
theorem c8_unique_codes :
    (∀ st, Reachable st → (st.rooms.map Prod.fst).Nodup) ∧
    (∀ (st : ServerState) (username : String) (draws : List String) (now : Nat)
      (c : String) (st2 : ServerState),
      createRoom username draws now st = some (CreateResult.created c, st2) →
      alookup st.rooms c = none) := by
  have hfresh : ∀ (st : ServerState) (username : String) (draws : List String) (now : Nat)
      (c : String) (st2 : ServerState),
      createRoom username draws now st = some (CreateResult.created c, st2) →
      alookup st.rooms c = none := by
    intro st username draws now c st2 h
    by_cases hu : username == ""
    · rw [createRoom, if_pos hu] at h
      injection h with h1
      injection h1 with h2 h3
      cases h2
    · rw [createRoom, if_neg hu] at h
      cases hgen : generateRoomCode draws st.rooms with
      | none => rw [hgen] at h; cases h
      | some c2 =>
        rw [hgen] at h
        injection h with h1
        injection h1 with h2 h3
        have hc : c2 = c := by injection h2
        have hfind := List.find?_some hgen
        rw [← hc]
        simpa using hfind
  refine ⟨?_, hfresh⟩
  intro st hreach
  induction hreach with
  | init => simp [initState]
  | @step s s2 op hre hrun ih =>
    cases op with
    | create u draws now =>
      simp only [runOp] at hrun
      cases hcr0 : createRoom u draws now s with
      | none => rw [hcr0] at hrun; cases hrun
      | some pair =>
        rw [hcr0] at hrun
        simp only [Option.map_some', Option.some_inj] at hrun
        obtain ⟨res, st3⟩ := pair
        cases res with
        | invalidInput =>
          have hst : st3 = s := by
            rw [createRoom] at hcr0
            by_cases hu : u == ""
            · rw [if_pos hu] at hcr0
              injection hcr0 with h1
              injection h1 with h2 h3
              exact h3.symm
            · rw [if_neg hu] at hcr0
              cases hgen : generateRoomCode draws s.rooms with
              | none => rw [hgen] at hcr0; cases hcr0
              | some c2 =>
                rw [hgen] at hcr0
                injection hcr0 with h1
                injection h1 with h2 h3
                cases h2
          rw [← hrun, hst]
          exact ih
        | created c =>
          have hfree : alookup s.rooms c = none := hfresh s u draws now c st3 hcr0
          have hst : st3.rooms = s.rooms ++ [(c,
              { currentTime := 0, videoUrl := some "", lastActivity := now,
                roomName := u ++ "'s room", movieTitle := "", chat := [] })] := by
            rw [createRoom] at hcr0
            by_cases hu : u == ""
            · rw [if_pos hu] at hcr0
              injection hcr0 with h1
              injection h1 with h2 h3
              cases h2
            · rw [if_neg hu] at hcr0
              cases hgen : generateRoomCode draws s.rooms with
              | none => rw [hgen] at hcr0; cases hcr0
              | some c2 =>
                rw [hgen] at hcr0
                injection hcr0 with h1
                injection h1 with h2 h3
                have hcc : c2 = c := by injection h2
                subst hcc
                rw [← h3]
          rw [← hrun]
          rw [hst, List.map_append]
          refine List.Nodup.append ih (by simp) ?_
          intro a ha hb
          simp only [List.map_cons, List.map_nil, List.mem_singleton] at hb
          subst hb
          exact (alookup_eq_none_iff.mp hfree) ha
    | setDetails c url mt now =>
      simp only [runOp, Option.some_inj] at hrun
      subst hrun
      cases hc : alookup s.rooms c with
      | none => simp only [setRoomDetails, hc]; exact ih
      | some q =>
        simp only [setRoomDetails, hc]
        rw [keys_updateRoom]
        exact ih
    | getTime c now =>
      simp only [runOp, Option.some_inj] at hrun
      subst hrun
      cases hc : alookup s.rooms c with
      | none => simp only [getTime, hc]; exact ih
      | some q =>
        simp only [getTime, hc]
        rw [keys_updateRoom]
        exact ih
    | getDetails c now =>
      simp only [runOp, Option.some_inj] at hrun
      subst hrun
      cases hc : alookup s.rooms c with
      | none => simp only [getDetails, hc]; exact ih
      | some q =>
        simp only [getDetails, hc]
        rw [keys_updateRoom]
        exact ih
    | listRooms =>
      simp only [runOp, Option.some_inj] at hrun
      subst hrun
      exact ih
    | postMessage c u pp m now =>
      simp only [runOp, Option.some_inj] at hrun
      subst hrun
      cases hc : alookup s.rooms c with
      | none => simp only [postMessage, hc]; exact ih
      | some q =>
        simp only [postMessage, hc]
        by_cases hemp : (u == "" || m == "") = true
        · rw [if_pos hemp]
          exact ih
        · rw [if_neg hemp]
          by_cases hrate : rateLimitHit s.userLastMessageTime u now = true
          · rw [if_pos hrate]
            exact ih
          · rw [if_neg hrate]
            simp only
            rw [keys_updateRoom]
            exact ih
    | tick =>
      simp only [runOp, Option.some_inj] at hrun
      subst hrun
      rw [keys_tick]
      exact ih
    | reap now =>
      simp only [runOp, Option.some_inj] at hrun
      subst hrun
      simp only [reap]
      exact ((List.filter_sublist _).map Prod.fst).nodup ih

/-- C8 witness: the state reached by one successful CreateRoom has
pairwise-distinct room codes. -/
theorem c8_witness :
    ((ServerState.mk
        [("ABCDE", Room.mk 0 (some "") 3 "alice's room" "" [])]
        []).rooms.map Prod.fst).Nodup :=
  c8_unique_codes.1 _
    (Reachable.step (Op.create "alice" ["0.abcde"] 3) Reachable.init (by rfl))

theorem toNat_ofNat_lt {n : Nat} (h : n < 55296) : (Char.ofNat n).toNat = n := by
  rw [Char.ofNat, dif_pos (Or.inl h)]
  rfl

theorem isUpperBase36_toUpper {ch : Char} (h : isBase36Digit ch = true) :
    isUpperBase36 (Char.toUpper ch) = true := by
  have h2 : (48 ≤ ch.toNat ∧ ch.toNat ≤ 57) ∨ (97 ≤ ch.toNat ∧ ch.toNat ≤ 122) := by
    simpa [isBase36Digit, Bool.or_eq_true, Bool.and_eq_true, decide_eq_true_eq] using h
  rw [Char.toUpper]
  by_cases hc : ch.toNat ≥ 97 ∧ ch.toNat ≤ 122
  · rw [if_pos hc]
    have hv : (Char.ofNat (ch.toNat - 32)).toNat = ch.toNat - 32 :=
      toNat_ofNat_lt (by omega)
    simp only [isUpperBase36, hv, Bool.or_eq_true, Bool.and_eq_true, decide_eq_true_eq]
    omega
  · rw [if_neg hc]
    simp only [isUpperBase36, Bool.or_eq_true, Bool.and_eq_true, decide_eq_true_eq]
    omega

/-- C9, counterexample to the claim as stated: the draw 0 is a possible
value of `Math.random()`; it stringifies in base 36 to `"0"`, from which
`substr(2, 5)` yields the empty string — a generated code of length 0, not
5. -/
theorem c9_counterexample :
    validRandomString "0" = true ∧
    generateRoomCode ["0"] [] = some "" ∧
    ("" : String).length ≠ 5 :=
  ⟨by decide, by decide, by decide⟩

/-- C9, amended: every code the generator returns from draws of the shape
`Math.random().toString(36)` produces consists only of uppercase base-36
characters (digits 0-9 and letters A-Z) and has length at most 5; the
length is exactly 5 only when the fractional base-36 expansion of the draw
has at least 5 digits. -/
theorem c9_code_shape (draws : List String) (rooms : List (String × Room)) (c : String)
    (hv : ∀ d ∈ draws, validRandomString d = true)
    (h : generateRoomCode draws rooms = some c) :
    c.length ≤ 5 ∧ c.data.all isUpperBase36 = true := by
  have hmem : c ∈ draws.map codeOfDraw := List.mem_of_find?_eq_some h
  obtain ⟨d, hd, hcd⟩ := List.mem_map.mp hmem
  subst hcd
  have hdig : ∀ ch ∈ d.data.drop 2, isBase36Digit ch = true := by
    have hvd := hv d hd
    rw [validRandomString] at hvd
    by_cases h0 : d = "0"
    · subst h0
      intro ch hch
      simp at hch
    · have h0b : (d == "0") = false := beq_eq_false_iff_ne.mpr h0
      rw [h0b, Bool.false_or, Bool.and_eq_true, Bool.and_eq_true] at hvd
      exact fun ch hch => List.all_eq_true.mp hvd.2 ch hch
  constructor
  · show (codeOfDraw d).length ≤ 5
    have hlen : (codeOfDraw d).length = (((d.data.drop 2).take 5).map Char.toUpper).length :=
      rfl
    rw [hlen, List.length_map, List.length_take]
    exact min_le_left _ _
  · have hdata : (codeOfDraw d).data = ((d.data.drop 2).take 5).map Char.toUpper := rfl
    rw [hdata, List.all_eq_true]
    intro x hx
    obtain ⟨ch, hch, hxe⟩ := List.mem_map.mp hx
    rw [← hxe]
    exact isUpperBase36_toUpper (hdig ch (List.take_subset _ _ hch))

/-- C9 witness: the amended theorem applied to the single draw `"0.abc"`
(the base-36 string of a draw with a 3-digit expansion), which yields the
3-character code `"ABC"`. -/
theorem c9_witness :
    ("ABC" : String).length ≤ 5 ∧ ("ABC" : String).data.all isUpperBase36 = true :=
  c9_code_shape ["0.abc"] [] "ABC" (by decide) (by rfl)

end WatchParty
